import Mathlib

/-!
Verification development for the `pybroom` tidying library.

The heart of the library is `pybroom/pybroom.py`: the three singledispatch
entry points `tidy`, `glance`, `augment`, and the recursive container
dispatcher `_multi_dataframe`, which flattens nested lists/dicts of fit
results into one pandas DataFrame while stamping provenance ("key")
columns.  We embed the dispatcher, the relevant DataFrame operations, and
the scipy/lmfit leaf extractors as executable Lean definitions and prove
the specification's claims about them.
-/

set_option autoImplicit false

namespace Pybroom

/-- A DataFrame cell.  `nan` models a missing value (`NaN`). -/
inductive Cell where
  | nan : Cell
  | int : Int → Cell
  | bool : Bool → Cell
  | str : String → Cell
deriving DecidableEq, Repr

/-- Lexicographic comparison of character lists by code point. -/
def charListLe : List Char → List Char → Bool
  | [], _ => true
  | _ :: _, [] => false
  | c :: cs, d :: ds =>
    if c.toNat < d.toNat then true
    else if d.toNat < c.toNat then false
    else charListLe cs ds

/-- String comparison, lexicographic by code point — how Python compares
`str` keys. -/
def strLe (a b : String) : Bool := charListLe a.data b.data

/-- Total Boolean order on cells, used to model pandas sorting of inferred
categorical categories (`factorize(values, sort=True)`).  Real inputs at one
container level are homogeneous (all string keys or all integer positions),
where this agrees with Python's ordering. -/
def Cell.le : Cell → Cell → Bool
  | .nan, _ => true
  | _, .nan => false
  | .int a, .int b => a ≤ b
  | .int _, _ => true
  | _, .int _ => false
  | .bool a, .bool b => !a || b
  | .bool _, _ => true
  | _, .bool _ => false
  | .str a, .str b => strLe a b

/-- Insert a cell into a sorted list (insertion-sort step). -/
def insertCell (x : Cell) : List Cell → List Cell
  | [] => [x]
  | y :: ys => if Cell.le x y then x :: y :: ys else y :: insertCell x ys

/-- Insertion sort on cells. -/
def sortCells : List Cell → List Cell
  | [] => []
  | x :: xs => insertCell x (sortCells xs)

/-- A pandas DataFrame, as far as this library observes it: a list of column
labels, a list of rows (each row a list of cells aligned with `cols`), and
the set of columns currently carrying an *ordered categorical* dtype,
together with their category lists. -/
structure Table where
  cols : List String
  rows : List (List Cell)
  cats : List (String × List Cell)
deriving DecidableEq, Repr

/-- A well-formed DataFrame: every row has exactly one cell per column. -/
def Table.WF (t : Table) : Prop :=
  ∀ r ∈ t.rows, r.length = t.cols.length

instance (t : Table) : Decidable t.WF := by
  unfold Table.WF; infer_instance

/-- `df[c]` read as a list of cells (empty if the column is absent). -/
def Table.col (t : Table) (c : String) : List Cell :=
  match t.cols.findIdx? (fun s => s == c) with
  | some i => t.rows.map (fun r => r.getD i Cell.nan)
  | none => []

/-- `df[c] = v` for a scalar `v`: models the dispatcher's
`d[key][var_name] = key`.  An existing column is overwritten in place
(losing any categorical dtype); a new column is appended on the right with
the scalar broadcast to every row. -/
def Table.addCol (t : Table) (c : String) (v : Cell) : Table :=
  match t.cols.findIdx? (fun s => s == c) with
  | some i =>
      { cols := t.cols
        rows := t.rows.map (fun r => r.set i v)
        cats := t.cats.filter (fun p => !(p.1 == c)) }
  | none =>
      { cols := t.cols ++ [c]
        rows := t.rows.map (fun r => r ++ [v])
        cats := t.cats }

/-- `df.assign(c = pd.Categorical(df[c], ordered=True))`: mark column `c` as
an ordered categorical.  pandas infers the categories as the *sorted*
distinct values of the column (`factorize(values, sort=True)`), not their
first-appearance order. -/
def Table.makeCategorical (t : Table) (c : String) : Table :=
  { cols := t.cols
    rows := t.rows
    cats := t.cats.filter (fun p => !(p.1 == c))
      ++ [(c, sortCells ((t.col c).dedup))] }

/-- Column labels of `pd.concat(ts)`: the union of the inputs' labels in
order of first appearance. -/
def addNewCol (acc : List String) (c : String) : List String :=
  if c ∈ acc then acc else acc ++ [c]

/-- Union of column label lists, first-appearance order. -/
def unionCols (ts : List Table) : List String :=
  ts.foldl (fun acc t => t.cols.foldl addNewCol acc) []

/-- Re-align one row of a table with source labels `tcols` to the merged
label list `cols`; cells for absent columns become `NaN`. -/
def reindexRow (cols tcols : List String) (row : List Cell) : List Cell :=
  cols.map (fun c =>
    match tcols.findIdx? (fun s => s == c) with
    | some i => row.getD i Cell.nan
    | none => Cell.nan)

/-- Categorical dtypes surviving `pd.concat`: a column stays an ordered
categorical only when every input table carries it as a categorical with
the same category list. -/
def concatCats (cols : List String) (ts : List Table) : List (String × List Cell) :=
  match ts with
  | [] => []
  | t :: _ =>
    cols.filterMap (fun c =>
      match t.cats.lookup c with
      | none => none
      | some cs =>
          if ts.all (fun u => u.cats.lookup c == some cs) then some (c, cs)
          else none)

/-- Errors surfaced by the embedded Python code. -/
inductive PyErr where
  | valueError : String → PyErr
  | typeError : String → PyErr
  | notImplemented : String → PyErr
deriving DecidableEq, Repr

/-- `pd.concat(d, ignore_index=True)`: concatenate the tables' rows in
order, re-aligned to the merged column list.  Concatenating zero tables is
a `ValueError` in pandas. -/
def pdConcat (ts : List Table) : Except PyErr Table :=
  match ts with
  | [] => .error (.valueError "No objects to concatenate")
  | _ =>
    let cols := unionCols ts
    .ok { cols := cols
          rows := ts.flatMap (fun t => t.rows.map (reindexRow cols t.cols))
          cats := concatCats cols ts }

/-- The message of the `ValueError` raised by `_multi_dataframe` when
`var_names` is exhausted at a container level. -/
def varNamesMsg : String :=
  "The list `var_names` is too short. Its length should be equal to the nesting levels in `results`."

/-- A nested pybroom input: a leaf fit-result object (of leaf type `α`), a
plain Python list, or a dict (an insertion-ordered association list, as
Python dicts are). -/
inductive FitVal (α : Type) where
  | leaf : α → FitVal α
  | lst : List (FitVal α) → FitVal α
  | dct : List (String × FitVal α) → FitVal α

/-- The list of tagged sub-tables built by the loop of `_multi_dataframe`:
each sub-table gets the provenance column `vn` set to its key. -/
def tagTables (vn : String) (pairs : List (Cell × Table)) : List Table :=
  pairs.map (fun p => p.2.addCol vn p.1)

/-- Tag each sub-table with the provenance value (`d[key][var_name] = key`),
concatenate (`pd.concat(d, ignore_index=True)`), and, when the container
was a dict, make the new provenance column an ordered categorical. -/
def finishTables (isDict : Bool) (vn : String) (pairs : List (Cell × Table)) :
    Except PyErr Table :=
  match pdConcat (tagTables vn pairs) with
  | .error e => .error e
  | .ok df => .ok (if isDict then df.makeCategorical vn else df)

mutual

/-- The dispatcher: `tidy`/`glance`/`augment` applied to a possibly nested
input.  A leaf goes to the leaf extractor `ext` (leftover `var_names` are
not passed on, mirroring `func(res, **kwargs)`); a list or dict goes
through `_multi_dataframe`, which first raises `ValueError` when
`var_names` is empty, then pops the first name and recurses on each
element in iteration order with the remaining names. -/
def pyCall {α : Type} (ext : α → Except PyErr Table) :
    FitVal α → List String → Except PyErr Table
  | .leaf a, _ => ext a
  | .lst _, [] => .error (.valueError varNamesMsg)
  | .lst xs, vn :: rest =>
    match goList ext xs rest with
    | .error e => .error e
    | .ok ts => finishTables false vn ((ts.enum).map (fun p => (Cell.int p.1, p.2)))
  | .dct _, [] => .error (.valueError varNamesMsg)
  | .dct ps, vn :: rest =>
    match goDict ext ps rest with
    | .error e => .error e
    | .ok ts => finishTables true vn (ts.map (fun p => (Cell.str p.1, p.2)))

/-- The `for` loop of `_multi_dataframe` over a list input: recursively
convert each element, stopping at the first error. -/
def goList {α : Type} (ext : α → Except PyErr Table) :
    List (FitVal α) → List String → Except PyErr (List Table)
  | [], _ => .ok []
  | x :: xs, rest =>
    match pyCall ext x rest with
    | .error e => .error e
    | .ok t =>
      match goList ext xs rest with
      | .error e => .error e
      | .ok ts => .ok (t :: ts)

/-- The `for` loop of `_multi_dataframe` over a dict input. -/
def goDict {α : Type} (ext : α → Except PyErr Table) :
    List (String × FitVal α) → List String → Except PyErr (List (String × Table))
  | [], _ => .ok []
  | (k, v) :: ps, rest =>
    match pyCall ext v rest with
    | .error e => .error e
    | .ok t =>
      match goDict ext ps rest with
      | .error e => .error e
      | .ok ts => .ok ((k, t) :: ts)

end

/-! ### Leaf objects and singledispatch resolution

`tidy`/`glance`/`augment` are `functools.singledispatch` generic functions.
A leaf of a registered type is handled by the registered extractor; an
unregistered type falls through to the generic implementation, which raises
`NotImplementedError` with a message naming the runtime type. -/

/-- An opaque fit-result object, as the dispatcher sees it: its runtime
type name, and the table its registered extractor would return — `none`
when no extractor is registered for its type. -/
structure Leaf where
  typeName : String
  tbl : Option Table
deriving DecidableEq, Repr

/-- The `NotImplementedError` message raised by the generic `tidy`/`glance`/
`augment` fallback (`Sorry, ... does not support this object type (%s)`). -/
def unsupportedMsg (opName typeName : String) : String :=
  "Sorry, `" ++ opName ++ "` does not support this object type (" ++ typeName ++ ")"

/-- Singledispatch resolution at a leaf: invoke the registered extractor,
or raise `NotImplementedError` naming the unmatched runtime type. -/
def dispatchLeaf (opName : String) (l : Leaf) : Except PyErr Table :=
  match l.tbl with
  | some t => .ok t
  | none => .error (.notImplemented (unsupportedMsg opName l.typeName))

/-! ### Scenario D (claim C1) -/

/-- A one-row summary table as returned by a `glance` leaf extractor. -/
def sumTable (n : Int) : Table :=
  { cols := ["redchi"], rows := [[Cell.int n]], cats := [] }

/-- A registered leaf whose summary extractor yields `sumTable n`. -/
def regLeaf (n : Int) : Leaf := { typeName := "ModelResult", tbl := some (sumTable n) }

/-- Scenario D input: the dict mapping `A` to `[r1, r2]` and `B` to `[r3, r4]`. -/
def scenarioD : FitVal Leaf :=
  .dct [("A", .lst [.leaf (regLeaf 1), .leaf (regLeaf 2)]),
        ("B", .lst [.leaf (regLeaf 3), .leaf (regLeaf 4)])]

/-! ### scipy: `pybroom/scipy/optimize.py` -/

/-- A `scipy.optimize.OptimizeResult`: the raw parameter array `x`, the
array-valued attributes (`grad`, `active_mask`, `fun`, ...) and the
scalar attributes (`success`, `cost`, `nit`, `status`, ...), as an
attribute bag probed with `hasattr`. -/
structure OptimizeResult where
  x : List Cell
  arrs : List (String × List Cell)
  attrs : List (String × Cell)
deriving DecidableEq, Repr

/-- `hasattr(result, a)`. -/
def hasattrO (r : OptimizeResult) (a : String) : Bool :=
  a == "x" || (r.attrs.lookup a).isSome || (r.arrs.lookup a).isSome

/-- `np.size(result.fun)`, when `result` has a `fun` attribute. -/
def funSize (r : OptimizeResult) : Option Nat :=
  match r.arrs.lookup "fun" with
  | some l => some l.length
  | none =>
    match r.attrs.lookup "fun" with
    | some _ => some 1
    | none => none

/-- `getattr(result, a)` read as a single cell (for the one-row summary). -/
def getattrCell (r : OptimizeResult) (a : String) : Cell :=
  match r.attrs.lookup a with
  | some c => c
  | none =>
    match r.arrs.lookup a with
    | some (c :: _) => c
    | _ => Cell.nan

/-- The candidate attribute list of `glance_optimize`.  The source writes
`success, cost, optimality, nfev, njev, nit` and then `status, message`
with no comma between the `nit` and `status` string literals: Python
concatenates the two adjacent literals, so the list holds the single entry
`nitstatus` instead of `nit` and `status`. -/
def attrNamesAll : List String :=
  ["success", "cost", "optimality", "nfev", "njev", "nitstatus", "message"]

/-- `glance_optimize(result)`: a one-row table over the candidate
attributes present on the result, with `fun` appended when it is a size-1
value (`d.apply(pd.to_numeric, errors=ignore)` only changes dtypes and is
modelled as the identity on cells). -/
def glance_optimize (r : OptimizeResult) : Table :=
  let names := attrNamesAll.filter (hasattrO r)
    ++ (if funSize r == some 1 then ["fun"] else [])
  { cols := names, rows := [names.map (getattrCell r)], cats := [] }

/-- A Python keyword-argument value, for the `tidy` call on an
`OptimizeResult`: `param_names` may be a space-separated string or a list
of strings. -/
inductive KwVal where
  | s : String → KwVal
  | sl : List String → KwVal
deriving DecidableEq, Repr

/-- `namedtuple(Params, param_names)` field names. -/
def splitParamNames : KwVal → List String
  | .s str => str.splitOn " "
  | .sl l => l

/-- Insert a string into a sorted list of strings. -/
def insertString (x : String) : List String → List String
  | [] => [x]
  | y :: ys => if strLe x y then x :: y :: ys else y :: insertString x ys

/-- Insertion sort on strings (the `sorted(keys)` of `dict_to_tidy`). -/
def sortStrings : List String → List String
  | [] => []
  | x :: xs => insertString x (sortStrings xs)

/-- `df[c] = vs` for an array `vs`: assign elementwise (used for the
`grad` and `active_mask` columns of `tidy_optimize`). -/
def Table.addColArray (t : Table) (c : String) (vs : List Cell) : Table :=
  match t.cols.findIdx? (fun s => s == c) with
  | some i =>
      { cols := t.cols
        rows := (t.rows.enum).map (fun p => p.2.set i (vs.getD p.1 Cell.nan))
        cats := t.cats.filter (fun p => !(p.1 == c)) }
  | none =>
      { cols := t.cols ++ [c]
        rows := (t.rows.enum).map (fun p => p.2 ++ [vs.getD p.1 Cell.nan])
        cats := t.cats }

/-- `dict_to_tidy(dc)` with the default column names `name` and `value` and
no `keys_exclude`: a two-column tidy table over the *sorted* keys. -/
def dict_to_tidy (d : List (String × Cell)) : Table :=
  let ks := sortStrings (d.map (fun p => p.1))
  { cols := ["name", "value"]
    rows := ks.map (fun k => [Cell.str k, (d.lookup k).getD Cell.nan])
    cats := [] }

/-- The part of `tidy_optimize` after the `param_names not in kwargs`
check: build the `Params` namedtuple from `result.x`, tidy its `_asdict()`,
then append `grad`/`active_mask` columns when those attributes exist.
(In the source this code is unreachable — see `tidy_optimize_call`.) -/
def tidy_optimize_rest (r : OptimizeResult) (pn : KwVal) : Except PyErr Table :=
  let names := splitParamNames pn
  if names.length ≠ r.x.length then
    .error (.typeError "namedtuple arity does not match result.x")
  else
    let df := dict_to_tidy (names.zip r.x)
    let df := match r.arrs.lookup "grad" with
      | some vs => df.addColArray "grad" vs
      | none => df
    let df := match r.arrs.lookup "active_mask" with
      | some vs => df.addColArray "active_mask" vs
      | none => df
    .ok df

/-- Calling `tidy(result, **callKwargs)` on a `scipy.optimize.OptimizeResult`.
`functools.singledispatch` forwards the arguments unchanged to
`tidy_optimize(result, param_names, **kwargs)`.  `param_names` is a named
positional parameter there, so Python binds a `param_names` keyword to it
and the body's `kwargs` can never contain the key `param_names`: the
body's `if param_names not in kwargs` check therefore raises `ValueError`
exactly when `param_names` *was* supplied, and omitting it is a `TypeError`
(missing positional argument) before the body runs. -/
def tidy_optimize_call (r : OptimizeResult) (callKwargs : List (String × KwVal)) :
    Except PyErr Table :=
  match callKwargs.lookup "param_names" with
  | none =>
      .error (.typeError "tidy_optimize() missing 1 required positional argument: param_names")
  | some pn =>
    let kwargs := callKwargs.filter (fun kv => ¬ (kv.1 == "param_names"))
    if (kwargs.lookup "param_names").isSome then tidy_optimize_rest r pn
    else .error (.valueError "The argument `param_names` is required for this input type.")

/-! ### lmfit: `pybroom/lmfit/lmfit.py` -/

/-- One entry of an lmfit `Parameters` mapping. -/
structure LmfitParam where
  name : String
  value : Cell
  pmin : Cell
  pmax : Cell
  vary : Bool
  expr : Cell
  stderr : Cell
deriving DecidableEq, Repr

/-- An lmfit `ModelResult`/`MinimizerResult`, as `tidy_lmfit` reads it:
the `params` mapping items, the `init_values` dict, and the reported
number of varied parameters `nvarys`. -/
structure LmfitResult where
  params : List LmfitParam
  init_values : List (String × Cell)
  nvarys : Nat
deriving DecidableEq, Repr

/-- Insert a parameter into a name-sorted list. -/
def insertParam (p : LmfitParam) : List LmfitParam → List LmfitParam
  | [] => [p]
  | q :: qs => if strLe p.name q.name then p :: q :: qs else q :: insertParam p qs

/-- `sorted(result.params.items())`: sort the parameters by name. -/
def sortParams : List LmfitParam → List LmfitParam
  | [] => []
  | p :: ps => insertParam p (sortParams ps)

/-- Column labels of the `tidy_lmfit` table. -/
def lmfitCols : List String :=
  ["name", "value", "min", "max", "vary", "expr", "stderr", "init_value"]

/-- The row written for one parameter (`init_value` stays `NaN` when the
parameter has no entry in `result.init_values`). -/
def paramRow (r : LmfitResult) (p : LmfitParam) : List Cell :=
  [Cell.str p.name, p.value, p.pmin, p.pmax, Cell.bool p.vary, p.expr, p.stderr,
   (r.init_values.lookup p.name).getD Cell.nan]

/-- `tidy_lmfit(result)`: the DataFrame starts with `nvarys` all-`NaN` rows
(`index=range(result.nvarys)`); the loop writes row `i` for the `i`-th
parameter in name-sorted order, and `d.loc[i, col] = v` with `i` outside
the current index *appends* a row, so the final row count is
`max(nvarys, len(result.params))`. -/
def tidy_lmfit (r : LmfitResult) : Table :=
  let sorted := sortParams r.params
  { cols := lmfitCols
    rows := (List.range (max r.nvarys sorted.length)).map (fun i =>
      match sorted[i]? with
      | some p => paramRow r p
      | none => List.replicate lmfitCols.length Cell.nan)
    cats := [] }

/-! ### Store-passing model of `_multi_dataframe` (claim C9)

To talk about mutation of the *caller's* Python objects, we re-embed
`_multi_dataframe` over an explicit object store.  A store cell holds
either a Python list of strings (a `var_names` object) or an ordered
container (the `list`/`dict`/`OrderedDict` objects, as ordered key–value
pairs).  Container elements are leaf objects, references to other store
objects (nested containers), or DataFrames (written into the local
`OrderedDict` copy by the loop).  Allocation appends at the end of the
store, so the caller's objects are exactly the indices below the initial
store length. -/

/-- A value held inside a container object. -/
inductive PyVal (α : Type) where
  | leafV : α → PyVal α
  | refV : Nat → PyVal α
  | tblV : Table → PyVal α

/-- A heap object: a list-of-strings object or an ordered container. -/
inductive PyObj (α : Type) where
  | namesO : List String → PyObj α
  | contO : Bool → List (Cell × PyVal α) → PyObj α

/-- The object store; indices are object identities. -/
abbrev Store (α : Type) : Type := List (PyObj α)

/-- `d[key] = v`: overwrite the entry with key `k` of the container object
at index `did`. -/
def storeSetEntry {α : Type} (s : Store α) (did : Nat) (k : Cell) (v : PyVal α) :
    Store α :=
  match s[did]? with
  | some (.contO b es) =>
      s.set did (.contO b (es.map (fun p => if p.1 == k then (p.1, v) else p)))
  | _ => s

/-- Read the loop's results back out of the `OrderedDict` copy: all values
must now be DataFrames. -/
def collectTables {α : Type} : List (Cell × PyVal α) → Option (List Table)
  | [] => some []
  | (_, .tblV t) :: es => (collectTables es).map (fun ts => t :: ts)
  | _ => none

/-- The tail of `_multi_dataframe` after the loop: read the DataFrames back
out of the `OrderedDict` copy at `did`, `pd.concat` them, and apply the
dict-only categorical conversion.  Takes the loop's resulting store and
outcome. -/
def mdFinish {α : Type} (did : Nat) (isD : Bool) (vn : String) (s4 : Store α) :
    Except PyErr Unit → Store α × Except PyErr Table
  | .error e => (s4, .error e)
  | .ok () =>
    match s4[did]? with
    | some (.contO _ entries2) =>
      match collectTables entries2 with
      | none => (s4, .error (.typeError "expected a DataFrame"))
      | some ts =>
        match pdConcat ts with
        | .error e => (s4, .error e)
        | .ok df => (s4, .ok (if isD then df.makeCategorical vn else df))
    | _ => (s4, .error (.typeError "missing container"))

mutual

/-- `_multi_dataframe(func, results, var_names)` over the explicit store:
`results` is the container object at index `rid`, `var_names` the list
object at index `vid`, `fuel` bounds the recursion depth (Python's
recursion limit).  The store is returned with the result so that mutation
is observable on error paths too.  Mirrors the source line by line: the
arity check, `_as_odict_copy` (fresh container `did`),
`_as_list_of_strings_copy` (fresh list `vcid`) followed by
`var_names.pop(0)` on the copy, the loop, `pd.concat`, and the
dict-only categorical conversion. -/
def multiDataframeSt {α : Type} (ext : α → Except PyErr Table) :
    Nat → Store α → Nat → Nat → Store α × Except PyErr Table
  | 0, s, _, _ => (s, .error (.typeError "maximum recursion depth exceeded"))
  | fuel + 1, s, rid, vid =>
    match s[vid]? with
    | some (.namesO ns) =>
      match ns with
      | [] => (s, .error (.valueError varNamesMsg))
      | vn :: nrest =>
        match s[rid]? with
        | some (.contO isD entries) =>
          let did := s.length
          let s1 := s ++ [PyObj.contO isD entries]
          let vcid := s1.length
          let s2 := s1 ++ [PyObj.namesO ns]
          let s3 := s2.set vcid (.namesO nrest)
          let p := mdLoop ext fuel s3 did vcid vn entries
          mdFinish did isD vn p.1 p.2
        | _ => (s, .error (.typeError "results is not a list or dict"))
    | _ => (s, .error (.typeError "var_names is not a list"))

/-- The loop `for i, (key, res) in enumerate(d.items())`: a leaf element
goes to the extractor (`func(res, **kwargs)`), a referenced container
recurses with the popped name-list copy (`func(res, var_names, **kwargs)`),
and the two assignments `d[key] = func(...)` and `d[key][var_name] = key`
write into the fresh `OrderedDict` copy at `did`. -/
def mdLoop {α : Type} (ext : α → Except PyErr Table) :
    Nat → Store α → Nat → Nat → String → List (Cell × PyVal α) →
    Store α × Except PyErr Unit
  | _, s, _, _, _, [] => (s, .ok ())
  | fuel, s, did, vcid, vn, (k, v) :: es =>
    let step : Store α × Except PyErr Table :=
      match v with
      | .leafV a => (s, ext a)
      | .refV cid => multiDataframeSt ext fuel s cid vcid
      | .tblV _ =>
          (s, .error (.notImplemented "Sorry, this object type is not supported"))
    match step with
    | (s', .error e) => (s', .error e)
    | (s', .ok t) =>
      let s2 := storeSetEntry s' did k (.tblV t)
      let s3 := storeSetEntry s2 did k (.tblV (t.addCol vn k))
      mdLoop ext fuel s3 did vcid vn es

end

/-- The store after a call preserves every object index below `n`
(and can only have grown). -/
def PreservesBelow {α : Type} (n : Nat) (s s' : Store α) : Prop :=
  s.length ≤ s'.length ∧ ∀ i, i < n → s'[i]? = s[i]?

/-! ## Theorems -/

theorem addCol_rows_length (t : Table) (c : String) (v : Cell) :
    (t.addCol c v).rows.length = t.rows.length := by
  unfold Table.addCol
  cases t.cols.findIdx? (fun s => s == c) <;> simp

theorem tagTables_rows_lengths (vn : String) (pairs : List (Cell × Table)) :
    (tagTables vn pairs).map (fun u => u.rows.length)
      = pairs.map (fun p => p.2.rows.length) := by
  unfold tagTables
  rw [List.map_map]
  exact List.map_congr_left fun p _ => addCol_rows_length p.2 vn p.1

theorem pdConcat_rows_length {ts : List Table} {u : Table}
    (h : pdConcat ts = .ok u) :
    u.rows.length = (ts.map (fun t => t.rows.length)).sum := by
  cases ts with
  | nil => simp [pdConcat] at h
  | cons t ts' =>
    simp only [pdConcat] at h
    cases h
    simp [List.length_flatMap, Function.comp_def]

theorem pdConcat_ok_of_ne_nil {ts : List Table} (h : ts ≠ []) :
    ∃ u, pdConcat ts = .ok u := by
  cases ts with
  | nil => exact absurd rfl h
  | cons t ts' => exact ⟨_, rfl⟩

theorem goList_eq_mapM {α : Type} (ext : α → Except PyErr Table)
    (xs : List (FitVal α)) (rest : List String) :
    goList ext xs rest = xs.mapM (fun x => pyCall ext x rest) := by
  induction xs with
  | nil => rw [List.mapM_nil]; rfl
  | cons x xs ih =>
    rw [List.mapM_cons]
    simp only [goList, ih]
    cases pyCall ext x rest with
    | error e => rfl
    | ok t =>
      cases xs.mapM (fun x => pyCall ext x rest) with
      | error e => rfl
      | ok ts => rfl

theorem goDict_spec {α : Type} (ext : α → Except PyErr Table) :
    ∀ (ps : List (String × FitVal α)) (rest : List String)
      (kts : List (String × Table)),
      goDict ext ps rest = .ok kts →
      kts.map Prod.fst = ps.map Prod.fst ∧
        ps.mapM (fun p => pyCall ext p.2 rest) = .ok (kts.map Prod.snd) := by
  intro ps
  induction ps with
  | nil =>
    intro rest kts h
    simp only [goDict] at h
    cases h
    exact ⟨rfl, by rw [List.mapM_nil]; rfl⟩
  | cons p ps ih =>
    intro rest kts h
    obtain ⟨k, v⟩ := p
    simp only [goDict] at h
    cases hp : pyCall ext v rest with
    | error e => rw [hp] at h; exact absurd h (by simp)
    | ok t =>
      rw [hp] at h
      cases hq : goDict ext ps rest with
      | error e => rw [hq] at h; exact absurd h (by simp)
      | ok kts' =>
        rw [hq] at h
        cases h
        obtain ⟨h1, h2⟩ := ih rest kts' hq
        refine ⟨by simp [h1], ?_⟩
        rw [List.mapM_cons, hp, h2]
        rfl

theorem zip_fst_snd {β γ : Type} : ∀ l : List (β × γ),
    (l.map Prod.fst).zip (l.map Prod.snd) = l
  | [] => rfl
  | p :: ps => by simp [zip_fst_snd ps]

theorem enum_map_snd_comp {β γ : Type} (l : List β) (f : β → γ) :
    l.enum.map (fun p => f p.2) = l.map f := by
  rw [show (fun p : Nat × β => f p.2) = f ∘ Prod.snd from rfl, ← List.map_map,
    List.enum_map_snd]

theorem pdConcat_eq {ts : List Table} {u : Table} (h : pdConcat ts = .ok u) :
    u.cols = unionCols ts ∧
      u.rows = ts.flatMap (fun t => t.rows.map (reindexRow (unionCols ts) t.cols)) ∧
      u.cats = concatCats (unionCols ts) ts := by
  cases ts with
  | nil => simp [pdConcat] at h
  | cons t ts' =>
    simp only [pdConcat] at h
    cases h
    exact ⟨rfl, rfl, rfl⟩

/-- **C2** (P5, row-count additivity and concatenation order): when the
dispatcher succeeds on a container, each element's own call succeeds, the
container table's row count is the sum of the element tables' row counts,
and its rows are the element sub-tables' rows (tagged with the provenance
value and re-aligned to the merged columns), concatenated in iteration
order with no re-sorting.  Element calls receive the remaining provenance
names, which a leaf element ignores. -/
theorem claim_C2 {α : Type} (ext : α → Except PyErr Table) :
    (∀ (xs : List (FitVal α)) (vn : String) (rest : List String) (t : Table),
      pyCall ext (.lst xs) (vn :: rest) = .ok t →
      ∃ ts : List Table, xs.mapM (fun x => pyCall ext x rest) = .ok ts ∧
        t.rows.length = (ts.map (fun u => u.rows.length)).sum ∧
        t.rows = (tagTables vn ((ts.enum).map (fun p => (Cell.int p.1, p.2)))).flatMap
          (fun u => u.rows.map (reindexRow t.cols u.cols)))
    ∧
    (∀ (ps : List (String × FitVal α)) (vn : String) (rest : List String) (t : Table),
      pyCall ext (.dct ps) (vn :: rest) = .ok t →
      ∃ ts : List Table, ps.mapM (fun p => pyCall ext p.2 rest) = .ok ts ∧
        t.rows.length = (ts.map (fun u => u.rows.length)).sum ∧
        t.rows = (tagTables vn (((ps.map Prod.fst).zip ts).map
            (fun p => (Cell.str p.1, p.2)))).flatMap
          (fun u => u.rows.map (reindexRow t.cols u.cols))) := by
  constructor
  · intro xs vn rest t h
    simp only [pyCall] at h
    cases hg : goList ext xs rest with
    | error e => rw [hg] at h; exact absurd h (by simp)
    | ok ts =>
      rw [hg] at h
      simp only [finishTables] at h
      cases hc : pdConcat (tagTables vn ((ts.enum).map (fun p => (Cell.int p.1, p.2)))) with
      | error e => rw [hc] at h; exact absurd h (by simp)
      | ok df =>
        rw [hc] at h
        simp only [Bool.false_eq_true, if_false, Except.ok.injEq] at h
        subst h
        obtain ⟨hcols, hrows, -⟩ := pdConcat_eq hc
        refine ⟨ts, by rw [← goList_eq_mapM]; exact hg, ?_, ?_⟩
        · rw [pdConcat_rows_length hc, tagTables_rows_lengths]
          simp only [List.map_map, Function.comp_def]
          exact congrArg List.sum (enum_map_snd_comp ts (fun u => u.rows.length))
        · rw [hrows, hcols]
  · intro ps vn rest t h
    simp only [pyCall] at h
    cases hg : goDict ext ps rest with
    | error e => rw [hg] at h; exact absurd h (by simp)
    | ok kts =>
      rw [hg] at h
      simp only [finishTables] at h
      cases hc : pdConcat (tagTables vn (kts.map (fun p => (Cell.str p.1, p.2)))) with
      | error e => rw [hc] at h; exact absurd h (by simp)
      | ok df =>
        rw [hc] at h
        simp only [if_true, Except.ok.injEq] at h
        subst h
        obtain ⟨hfst, hmap⟩ := goDict_spec ext ps rest kts hg
        have hzip : ((ps.map Prod.fst).zip (kts.map Prod.snd)) = kts := by
          rw [← hfst]; exact zip_fst_snd kts
        refine ⟨kts.map Prod.snd, hmap, ?_, ?_⟩
        · have hlen : (Table.makeCategorical df vn).rows.length = df.rows.length := rfl
          rw [hlen, pdConcat_rows_length hc, tagTables_rows_lengths]
          simp [List.map_map, Function.comp_def]
        · obtain ⟨hcols, hrows, -⟩ := pdConcat_eq hc
          have hrows2 : (Table.makeCategorical df vn).rows = df.rows := rfl
          have hcols2 : (Table.makeCategorical df vn).cols = df.cols := rfl
          rw [hzip, hrows2, hcols2, hrows, hcols]

theorem claim_C2_witness :
    ∃ ts : List Table,
      ([FitVal.leaf (regLeaf 1), FitVal.leaf (regLeaf 2)].mapM
          (fun x => pyCall (dispatchLeaf "glance") x []) = .ok ts) ∧
        (Table.mk ["redchi", "key"]
            [[Cell.int 1, Cell.int 0], [Cell.int 2, Cell.int 1]] []).rows.length
          = (ts.map (fun u => u.rows.length)).sum ∧
        (Table.mk ["redchi", "key"]
            [[Cell.int 1, Cell.int 0], [Cell.int 2, Cell.int 1]] []).rows
          = (tagTables "key" ((ts.enum).map (fun p => (Cell.int p.1, p.2)))).flatMap
              (fun u => u.rows.map (reindexRow
                (Table.mk ["redchi", "key"]
                  [[Cell.int 1, Cell.int 0], [Cell.int 2, Cell.int 1]] []).cols u.cols)) :=
  (claim_C2 (dispatchLeaf "glance")).1
    [FitVal.leaf (regLeaf 1), FitVal.leaf (regLeaf 2)] "key" []
    (Table.mk ["redchi", "key"] [[Cell.int 1, Cell.int 0], [Cell.int 2, Cell.int 1]] [])
    (by rfl)

theorem mapM_ok_length {α β ε : Type} (f : α → Except ε β) :
    ∀ (xs : List α) (ys : List β), xs.mapM f = .ok ys → ys.length = xs.length
  | [], ys, h => by
    rw [List.mapM_nil] at h
    cases h
    rfl
  | x :: xs, ys, h => by
    rw [List.mapM_cons] at h
    cases hf : f x with
    | error e => rw [hf] at h; exact Except.noConfusion h
    | ok y =>
      rw [hf] at h
      cases hm : xs.mapM f with
      | error e => rw [hm] at h; exact Except.noConfusion h
      | ok ys' =>
        rw [hm] at h
        have h2 : Except.ok (y :: ys') = Except.ok ys := h
        injection h2 with h3
        rw [← h3]
        simp [mapM_ok_length f xs ys' hm]

theorem findIdx?_of_not_mem {c : String} {cols : List String} (h : c ∉ cols) :
    cols.findIdx? (fun s => s == c) = none := by
  rw [List.findIdx?_eq_none_iff]
  intro x hx
  exact beq_eq_false_iff_ne.mpr (fun e => h (e ▸ hx))

theorem findIdx?_append_self_aux (c : String) :
    ∀ (cols : List String) (i : Nat), c ∉ cols →
      (cols ++ [c]).findIdx? (fun s => s == c) i = some (cols.length + i)
  | [], i, _ => by simp [List.findIdx?_cons]
  | a :: as, i, h => by
    have hne : ¬ (c = a ∨ c ∈ as) := by simpa using h
    have ha : (a == c) = false :=
      beq_eq_false_iff_ne.mpr (fun e => hne (Or.inl e.symm))
    have ih := findIdx?_append_self_aux c as (i + 1) (fun hm => hne (Or.inr hm))
    simp only [List.cons_append, List.findIdx?_cons, ha, Bool.false_eq_true, if_false, ih,
      List.length_cons]
    congr 1
    omega

theorem findIdx?_append_self {c : String} {cols : List String} (h : c ∉ cols) :
    (cols ++ [c]).findIdx? (fun s => s == c) = some cols.length := by
  have := findIdx?_append_self_aux c cols 0 h
  simpa using this

theorem addCol_new {t : Table} {c : String} (v : Cell) (h : c ∉ t.cols) :
    t.addCol c v
      = ⟨t.cols ++ [c], t.rows.map (fun r => r ++ [v]), t.cats⟩ := by
  unfold Table.addCol
  rw [findIdx?_of_not_mem h]

theorem foldl_addNewCol_of_subset :
    ∀ (cs acc : List String), (∀ c ∈ cs, c ∈ acc) → cs.foldl addNewCol acc = acc
  | [], _, _ => rfl
  | c :: cs, acc, h => by
    have h1 : addNewCol acc c = acc := by simp [addNewCol, h c (by simp)]
    rw [List.foldl_cons, h1]
    exact foldl_addNewCol_of_subset cs acc (fun x hx => h x (by simp [hx]))

theorem foldl_addNewCol_fresh :
    ∀ (cs acc : List String), cs.Nodup → (∀ c ∈ cs, c ∉ acc) →
      cs.foldl addNewCol acc = acc ++ cs
  | [], acc, _, _ => by simp
  | c :: cs, acc, hnd, h => by
    have h1 : addNewCol acc c = acc ++ [c] := by simp [addNewCol, h c (by simp)]
    rw [List.foldl_cons, h1,
      foldl_addNewCol_fresh cs (acc ++ [c]) (List.nodup_cons.mp hnd).2 ?fresh]
    · simp
    case fresh =>
      intro x hx
      simp only [List.mem_append, List.mem_singleton, not_or]
      exact ⟨fun hm => h x (by simp [hx]) hm,
        fun e => (List.nodup_cons.mp hnd).1 (e ▸ hx)⟩

theorem unionCols_uniform_aux (cs : List String) :
    ∀ (ts : List Table), (∀ t ∈ ts, t.cols = cs) →
      ts.foldl (fun acc t => t.cols.foldl addNewCol acc) cs = cs
  | [], _ => rfl
  | t :: ts, h => by
    rw [List.foldl_cons, h t (by simp),
      foldl_addNewCol_of_subset cs cs (fun c hc => hc)]
    exact unionCols_uniform_aux cs ts (fun u hu => h u (by simp [hu]))

theorem unionCols_uniform {cs : List String} {ts : List Table}
    (hnd : cs.Nodup) (hne : ts ≠ []) (h : ∀ t ∈ ts, t.cols = cs) :
    unionCols ts = cs := by
  cases ts with
  | nil => exact absurd rfl hne
  | cons t ts' =>
    unfold unionCols
    rw [List.foldl_cons, h t (by simp),
      foldl_addNewCol_fresh cs [] hnd (by simp)]
    simp only [List.nil_append]
    exact unionCols_uniform_aux cs ts' (fun u hu => h u (by simp [hu]))

theorem dedup_replicate_append {k : Cell} {l : List Cell} (hk : k ∉ l) :
    ∀ m : Nat, (List.replicate (m + 1) k ++ l).dedup = k :: l.dedup
  | 0 => by
    rw [List.replicate_succ, List.replicate_zero, List.cons_append, List.nil_append]
    exact List.dedup_cons_of_not_mem hk
  | m + 1 => by
    have hmem : k ∈ List.replicate (m + 1) k ++ l := by
      simp [List.mem_replicate]
    calc (List.replicate (m + 2) k ++ l).dedup
        = (k :: (List.replicate (m + 1) k ++ l)).dedup := by
          rw [List.replicate_succ, List.cons_append]
      _ = (List.replicate (m + 1) k ++ l).dedup := List.dedup_cons_of_mem hmem
      _ = k :: l.dedup := dedup_replicate_append hk m

theorem dedup_blocks :
    ∀ (pairs : List (Cell × Nat)),
      (∀ p ∈ pairs, 0 < p.2) → (pairs.map Prod.fst).Nodup →
      (pairs.flatMap (fun p => List.replicate p.2 p.1)).dedup = pairs.map Prod.fst
  | [], _, _ => rfl
  | (k, n) :: rest, hpos, hnd => by
    have hk : k ∉ rest.flatMap (fun p => List.replicate p.2 p.1) := by
      intro hmem
      rw [List.mem_flatMap] at hmem
      obtain ⟨p, hp, hkp⟩ := hmem
      have he : k = p.1 := List.eq_of_mem_replicate hkp
      have : k ∈ rest.map Prod.fst := he ▸ List.mem_map_of_mem Prod.fst hp
      exact (List.nodup_cons.mp (by simpa using hnd)).1 this
    have hn : 0 < n := hpos (k, n) (by simp)
    obtain ⟨m, hm⟩ : ∃ m, n = m + 1 := ⟨n - 1, by omega⟩
    subst hm
    rw [List.flatMap_cons, dedup_replicate_append hk m,
      dedup_blocks rest (fun p hp => hpos p (by simp [hp]))
        (by simpa using (List.nodup_cons.mp (by simpa using hnd)).2)]
    rfl

theorem reindex_last_cell {cs : List String} {vn : String} (hvn : vn ∉ cs)
    {r : List Cell} (v : Cell) (hr : r.length = cs.length) :
    (reindexRow (cs ++ [vn]) (cs ++ [vn]) (r ++ [v])).getD cs.length Cell.nan = v := by
  unfold reindexRow
  rw [List.getD_eq_getElem?_getD, List.getElem?_map]
  have hidx : (cs ++ [vn])[cs.length]? = some vn := by
    rw [List.getElem?_append_right (le_refl _)]
    simp
  rw [hidx]
  simp only [Option.map_some', Option.getD_some]
  rw [findIdx?_append_self hvn]
  show (r ++ [v]).getD cs.length Cell.nan = v
  rw [List.getD_eq_getElem?_getD, List.getElem?_append_right (le_of_eq hr)]
  simp [hr]

theorem blocks_eq {cs : List String} {vn : String} (hvn : vn ∉ cs) :
    ∀ pairs : List (Cell × Table), (∀ p ∈ pairs, p.2.cols = cs ∧ p.2.WF) →
      (pairs.flatMap (fun p =>
          ((p.2.addCol vn p.1).rows.map
              (reindexRow (cs ++ [vn]) (p.2.addCol vn p.1).cols)).map
            (fun row => row.getD cs.length Cell.nan)))
        = pairs.flatMap (fun p => List.replicate p.2.rows.length p.1)
  | [], _ => rfl
  | p :: rest, h => by
    obtain ⟨hcols, hwf⟩ := h p (by simp)
    rw [List.flatMap_cons, List.flatMap_cons,
      blocks_eq hvn rest (fun q hq => h q (by simp [hq]))]
    congr 1
    rw [addCol_new p.1 (hcols ▸ hvn)]
    simp only [List.map_map]
    exact (List.map_congr_left (fun r hr => by
      show (reindexRow (cs ++ [vn]) (p.2.cols ++ [vn]) (r ++ [p.1])).getD
          cs.length Cell.nan = p.1
      have hrl : r.length = cs.length := by
        have h4 := hwf r hr
        rwa [hcols] at h4
      rw [hcols]
      exact reindex_last_cell hvn p.1 hrl)).trans (List.map_const' _ _)

theorem col_of_findIdx {t : Table} {c : String} {i : Nat}
    (h : t.cols.findIdx? (fun s => s == c) = some i) :
    t.col c = t.rows.map (fun r => r.getD i Cell.nan) := by
  unfold Table.col
  rw [h]

theorem concat_col_vn {vn : String} {cs : List String} (hnd : cs.Nodup)
    (hvn : vn ∉ cs) {pairs : List (Cell × Table)}
    (hp : ∀ p ∈ pairs, p.2.cols = cs ∧ p.2.WF)
    {df : Table} (hc : pdConcat (tagTables vn pairs) = .ok df) :
    df.cols = cs ++ [vn] ∧
      df.col vn = pairs.flatMap (fun p => List.replicate p.2.rows.length p.1) := by
  have htag : ∀ u ∈ tagTables vn pairs, u.cols = cs ++ [vn] := by
    intro u hu
    obtain ⟨p, hpm, he⟩ := List.mem_map.mp hu
    obtain ⟨hcols, -⟩ := hp p hpm
    rw [← he, addCol_new p.1 (hcols ▸ hvn), hcols]
  have hne : tagTables vn pairs ≠ [] := by
    intro he
    rw [he] at hc
    simp [pdConcat] at hc
  have hnd2 : (cs ++ [vn]).Nodup := by
    rw [List.nodup_append]
    exact ⟨hnd, List.nodup_singleton vn,
      fun a ha hb => hvn ((List.mem_singleton.mp hb) ▸ ha)⟩
  have hunion : unionCols (tagTables vn pairs) = cs ++ [vn] :=
    unionCols_uniform hnd2 hne htag
  obtain ⟨hcols, hrows, -⟩ := pdConcat_eq hc
  rw [hunion] at hcols hrows
  refine ⟨hcols, ?_⟩
  rw [col_of_findIdx (by rw [hcols]; exact findIdx?_append_self hvn), hrows,
    List.map_flatMap]
  unfold tagTables
  rw [List.flatMap_map]
  exact blocks_eq hvn pairs hp

/-- Auxiliary: `goDict` succeeds exactly when every element's call does,
pairing the dict keys with the element tables in order. -/
theorem goDict_eq_mapM {α : Type} (ext : α → Except PyErr Table) :
    ∀ (ps : List (String × FitVal α)) (rest : List String),
      goDict ext ps rest
        = Except.map (fun ts => (ps.map Prod.fst).zip ts)
            (ps.mapM (fun p => pyCall ext p.2 rest))
  | [], rest => by rw [List.mapM_nil]; rfl
  | (k, v) :: ps, rest => by
    rw [List.mapM_cons]
    simp only [goDict, goDict_eq_mapM ext ps rest]
    cases pyCall ext v rest with
    | error e => rfl
    | ok t =>
      cases ps.mapM (fun p => pyCall ext p.2 rest) with
      | error e => rfl
      | ok ts => rfl

/-- Auxiliary: the outcome of the dispatcher on a container whose elements
all succeed with uniform-schema, well-formed, non-empty tables. -/
theorem container_uniform
    {cs : List String} {vn : String} (hnd : cs.Nodup) (hvn : vn ∉ cs)
    (pairs : List (Cell × Table)) (hpne : pairs ≠ [])
    (hp : ∀ p ∈ pairs, p.2.cols = cs ∧ p.2.WF ∧ p.2.rows ≠ [])
    (hkeys : (pairs.map Prod.fst).Nodup) :
    ∃ df, pdConcat (tagTables vn pairs) = .ok df ∧
      df.cols = cs ++ [vn] ∧ (df.col vn).dedup = pairs.map Prod.fst := by
  have htagne : tagTables vn pairs ≠ [] := by simpa [tagTables] using hpne
  obtain ⟨df, hdf⟩ := pdConcat_ok_of_ne_nil htagne
  obtain ⟨hcols, hcol⟩ := concat_col_vn hnd hvn
    (fun p hq => ⟨(hp p hq).1, (hp p hq).2.1⟩) hdf
  refine ⟨df, hdf, hcols, ?_⟩
  rw [hcol]
  have h1 : pairs.flatMap (fun p => List.replicate p.2.rows.length p.1)
      = (pairs.map (fun p => (p.1, p.2.rows.length))).flatMap
          (fun q => List.replicate q.2 q.1) := by
    rw [List.flatMap_map]
  have hfst : (pairs.map (fun p => (p.1, p.2.rows.length))).map Prod.fst
      = pairs.map Prod.fst := by
    rw [List.map_map]; rfl
  rw [h1, dedup_blocks _ ?pos ?nd, hfst]
  case pos =>
    intro q hq
    obtain ⟨p, hpm, he⟩ := List.mem_map.mp hq
    obtain ⟨-, -, h3⟩ := hp p hpm
    rw [← he]
    simpa [List.length_pos] using h3
  case nd => rw [hfst]; exact hkeys

/-- **C3, amended**: for a non-empty container of N elements whose calls
all succeed with tables of one uniform column schema (not containing the
provenance name), *each with at least one row*, the container table's
columns are the element columns plus exactly the one provenance column,
and the provenance column takes exactly N distinct values — one per
position (list) or per key (dict, keys distinct).  The original claim
omits the nonempty-sub-table proviso, without which a zero-row element
contributes no provenance value (see the counterexample). -/
theorem claim_C3_amended {α : Type} (ext : α → Except PyErr Table) :
    (∀ (xs : List (FitVal α)) (vn : String) (rest : List String)
        (ts : List Table) (cs : List String),
      xs.mapM (fun x => pyCall ext x rest) = .ok ts →
      xs ≠ [] →
      (∀ u ∈ ts, u.cols = cs ∧ u.WF ∧ u.rows ≠ []) →
      cs.Nodup → vn ∉ cs →
      ∃ t, pyCall ext (.lst xs) (vn :: rest) = .ok t ∧
        t.cols = cs ++ [vn] ∧
        (t.col vn).dedup = (List.range xs.length).map (fun i : Nat => Cell.int i) ∧
        (t.col vn).dedup.length = xs.length)
    ∧
    (∀ (ps : List (String × FitVal α)) (vn : String) (rest : List String)
        (ts : List Table) (cs : List String),
      ps.mapM (fun p => pyCall ext p.2 rest) = .ok ts →
      ps ≠ [] →
      (∀ u ∈ ts, u.cols = cs ∧ u.WF ∧ u.rows ≠ []) →
      cs.Nodup → vn ∉ cs → (ps.map Prod.fst).Nodup →
      ∃ t, pyCall ext (.dct ps) (vn :: rest) = .ok t ∧
        t.cols = cs ++ [vn] ∧
        (t.col vn).dedup = ps.map (fun p => Cell.str p.1) ∧
        (t.col vn).dedup.length = ps.length) := by
  constructor
  · intro xs vn rest ts cs hm hne hu hnd hvn
    have hg : goList ext xs rest = .ok ts := by rw [goList_eq_mapM]; exact hm
    have hlen : ts.length = xs.length := mapM_ok_length _ xs ts hm
    have htsne : ts ≠ [] := by
      intro he
      rw [he] at hlen
      exact hne (List.length_eq_zero.mp hlen.symm)
    have hpne : (ts.enum.map (fun p => (Cell.int p.1, p.2))) ≠ [] := by
      simpa [List.enum_length] using htsne
    have hmem : ∀ p ∈ ts.enum.map (fun p => (Cell.int p.1, p.2)), p.2 ∈ ts := by
      intro p hpm
      obtain ⟨q, hq, he⟩ := List.mem_map.mp hpm
      have h2 := List.mem_map_of_mem Prod.snd hq
      rw [List.enum_map_snd] at h2
      rw [← he]
      exact h2
    have hfst : (ts.enum.map (fun p => (Cell.int p.1, p.2))).map Prod.fst
        = (List.range ts.length).map (fun i : Nat => Cell.int i) := by
      rw [List.map_map, ← List.enum_map_fst ts, List.map_map]
      rfl
    have hinj : Function.Injective (fun i : Nat => (Cell.int i : Cell)) := by
      intro a b e
      simp only [Cell.int.injEq] at e
      omega
    obtain ⟨df, hdf, hcols, hdd⟩ := container_uniform hnd hvn _ hpne
      (fun p hq => hu p.2 (hmem p hq)) (by
        rw [hfst]
        exact List.Nodup.map hinj (List.nodup_range ts.length))
    have hfinal : (df.col vn).dedup
        = (List.range xs.length).map (fun i : Nat => Cell.int i) := by
      rw [hdd, hfst, hlen]
    refine ⟨df, ?_, hcols, hfinal, by rw [hfinal]; simp⟩
    simp only [pyCall, hg, finishTables, hdf, Bool.false_eq_true, if_false]
  · intro ps vn rest ts cs hm hne hu hnd hvn hknd
    have hg : goDict ext ps rest = .ok ((ps.map Prod.fst).zip ts) := by
      rw [goDict_eq_mapM, hm]; rfl
    have hlen : ts.length = ps.length := mapM_ok_length _ ps ts hm
    have hziplen : ((ps.map Prod.fst).zip ts).length = ps.length := by
      rw [List.length_zip, List.length_map, hlen]
      exact Nat.min_self _
    have hpne : (((ps.map Prod.fst).zip ts).map (fun p => (Cell.str p.1, p.2))) ≠ [] := by
      intro he
      have he2 : ((ps.map Prod.fst).zip ts) = [] := by
        cases hz : (ps.map Prod.fst).zip ts with
        | nil => rfl
        | cons a as => rw [hz] at he; exact absurd he (by simp)
      rw [he2] at hziplen
      exact hne (List.length_eq_zero.mp hziplen.symm)
    have hmem : ∀ p ∈ ((ps.map Prod.fst).zip ts).map (fun p => (Cell.str p.1, p.2)),
        p.2 ∈ ts := by
      intro p hpm
      obtain ⟨q, hq, he⟩ := List.mem_map.mp hpm
      obtain ⟨q1, q2⟩ := q
      have h2 := (List.of_mem_zip hq).2
      rw [← he]
      exact h2
    have hfst : (((ps.map Prod.fst).zip ts).map (fun p => (Cell.str p.1, p.2))).map Prod.fst
        = ps.map (fun p => Cell.str p.1) := by
      rw [List.map_map]
      have h1 : (((ps.map Prod.fst).zip ts).map
            (Prod.fst ∘ fun p : String × Table => (Cell.str p.1, p.2)))
          = (((ps.map Prod.fst).zip ts).map Prod.fst).map (fun k => Cell.str k) := by
        rw [List.map_map]; rfl
      rw [h1, List.map_fst_zip _ _ (by rw [List.length_map, hlen])]
      rw [List.map_map]; rfl
    obtain ⟨df, hdf, hcols, hdd⟩ := container_uniform hnd hvn _ hpne
      (fun p hq => hu p.2 (hmem p hq)) (by
        rw [hfst, show (ps.map (fun p => Cell.str p.1))
            = (ps.map Prod.fst).map (fun k => Cell.str k) from by rw [List.map_map]; rfl]
        exact List.Nodup.map (fun a b e => by injection e) hknd)
    have hfinal : (df.makeCategorical vn).col vn = df.col vn := rfl
    have hfincols : (df.makeCategorical vn).cols = df.cols := rfl
    have hcol2 : ((df.makeCategorical vn).col vn).dedup = ps.map (fun p => Cell.str p.1) := by
      rw [hfinal, hdd, hfst]
    refine ⟨df.makeCategorical vn, ?_, by rw [hfincols, hcols], hcol2,
      by rw [hcol2, List.length_map]⟩
    simp only [pyCall, hg, finishTables, hdf, if_true]

theorem claim_C3_witness :
    ∃ t, pyCall (dispatchLeaf "glance")
        (FitVal.lst [.leaf (regLeaf 1), .leaf (regLeaf 2)]) ["key"] = .ok t ∧
      t.cols = ["redchi"] ++ ["key"] ∧
      (t.col "key").dedup
        = (List.range ([FitVal.leaf (regLeaf 1), FitVal.leaf (regLeaf 2)]).length).map
            (fun i : Nat => Cell.int i) ∧
      (t.col "key").dedup.length
        = ([FitVal.leaf (regLeaf 1), FitVal.leaf (regLeaf 2)]).length :=
  (claim_C3_amended (dispatchLeaf "glance")).1
    [.leaf (regLeaf 1), .leaf (regLeaf 2)] "key" []
    [sumTable 1, sumTable 2] ["redchi"]
    (by rfl) (by simp) (by decide) (by decide) (by decide)

theorem lookup_filter_self {β : Type} (vn : String) :
    ∀ l : List (String × β),
      (l.filter (fun p => !(p.1 == vn))).lookup vn = none
  | [] => rfl
  | (k, b) :: ps => by
    by_cases h : k = vn
    · subst h
      simp only [List.filter_cons, beq_self_eq_true, Bool.not_true,
        Bool.false_eq_true, if_false]
      exact lookup_filter_self k ps
    · have hk : (k == vn) = false := beq_eq_false_iff_ne.mpr h
      simp only [List.filter_cons, hk, Bool.not_false, if_true]
      rw [List.lookup_cons]
      have hvk : (vn == k) = false := beq_eq_false_iff_ne.mpr (fun e => h e.symm)
      simp only [hvk]
      exact lookup_filter_self vn ps

theorem lookup_filter_append {β : Type} (l : List (String × β)) (vn : String) (x : β) :
    ((l.filter (fun p => !(p.1 == vn))) ++ [(vn, x)]).lookup vn = some x := by
  rw [List.lookup_append, lookup_filter_self]
  simp [List.lookup]

/-- The categorical marking records exactly the sorted distinct values of
the column. -/
theorem makeCategorical_lookup (t : Table) (c : String) :
    (t.makeCategorical c).cats.lookup c = some (sortCells ((t.col c).dedup)) :=
  lookup_filter_append t.cats c _

theorem addCol_cats_lookup {t : Table} {vn : String} (v : Cell)
    (h : t.cats.lookup vn = none ∨ vn ∈ t.cols) :
    (t.addCol vn v).cats.lookup vn = none := by
  unfold Table.addCol
  cases hf : t.cols.findIdx? (fun s => s == vn) with
  | some i => exact lookup_filter_self vn t.cats
  | none =>
    cases h with
    | inl h1 => exact h1
    | inr h2 =>
      have := List.findIdx?_eq_none_iff.mp hf vn h2
      simp at this

theorem lookup_filterMap_none {β : Type} {f : String → Option (String × β)}
    {vn : String} (hf : ∀ c p, f c = some p → p.1 = c) (hvn : f vn = none) :
    ∀ cols : List String, (cols.filterMap f).lookup vn = none
  | [] => rfl
  | c :: cs => by
    rw [List.filterMap_cons]
    cases hc : f c with
    | none => exact lookup_filterMap_none hf hvn cs
    | some p =>
      have hp1 : p.1 = c := hf c p hc
      have hcvn : ¬ (vn = p.1) := by
        rw [hp1]
        intro e
        rw [← e] at hc
        rw [hvn] at hc
        cases hc
      obtain ⟨p1, p2⟩ := p
      rw [List.lookup_cons]
      have hvk : (vn == p1) = false := beq_eq_false_iff_ne.mpr hcvn
      simp only [hvk]
      exact lookup_filterMap_none hf hvn cs

theorem concatCats_cons_lookup_none {cols : List String} {t0 : Table}
    {rest : List Table} {vn : String} (h : t0.cats.lookup vn = none) :
    (concatCats cols (t0 :: rest)).lookup vn = none := by
  unfold concatCats
  refine lookup_filterMap_none ?_ ?_ cols
  · intro c p hc
    cases hl : t0.cats.lookup c with
    | none => rw [hl] at hc; cases hc
    | some cs0 =>
      rw [hl] at hc
      have hc2 : (if ((t0 :: rest).all fun u => List.lookup c u.cats == some cs0) = true
          then some (c, cs0) else none) = some p := hc
      by_cases hall : ((t0 :: rest).all fun u => List.lookup c u.cats == some cs0) = true
      · rw [if_pos hall] at hc2
        cases hc2
        rfl
      · rw [if_neg hall] at hc2
        cases hc2
  · rw [h]

/-- **C6, amended**: when the top-level container is a dict, the returned
table's provenance column is an ordered categorical whose categories are
the *sorted* distinct values of that column (the distinct keys in
ascending sort order — pandas sorts inferred categories — not
first-appearance order); when the top-level container is a list whose
element tables do not already carry the provenance name as a categorical
column, the provenance column is not categorical. -/
theorem claim_C6_amended {α : Type} (ext : α → Except PyErr Table) :
    (∀ (ps : List (String × FitVal α)) (vn : String) (rest : List String) (t : Table),
      pyCall ext (.dct ps) (vn :: rest) = .ok t →
      t.cats.lookup vn = some (sortCells ((t.col vn).dedup)))
    ∧
    (∀ (xs : List (FitVal α)) (vn : String) (rest : List String)
        (ts : List Table) (t : Table),
      xs.mapM (fun x => pyCall ext x rest) = .ok ts →
      (∀ u ∈ ts, u.cats.lookup vn = none ∨ vn ∈ u.cols) →
      pyCall ext (.lst xs) (vn :: rest) = .ok t →
      t.cats.lookup vn = none) := by
  constructor
  · intro ps vn rest t h
    simp only [pyCall] at h
    cases hg : goDict ext ps rest with
    | error e => rw [hg] at h; exact absurd h (by simp)
    | ok kts =>
      rw [hg] at h
      simp only [finishTables] at h
      cases hc : pdConcat (tagTables vn (kts.map (fun p => (Cell.str p.1, p.2)))) with
      | error e => rw [hc] at h; exact absurd h (by simp)
      | ok df =>
        rw [hc] at h
        simp only [if_true, Except.ok.injEq] at h
        subst h
        have hcol : (df.makeCategorical vn).col vn = df.col vn := rfl
        rw [hcol]
        exact makeCategorical_lookup df vn
  · intro xs vn rest ts t hm hcond h
    simp only [pyCall] at h
    have hg : goList ext xs rest = .ok ts := by rw [goList_eq_mapM]; exact hm
    rw [hg] at h
    simp only [finishTables] at h
    cases hc : pdConcat (tagTables vn ((ts.enum).map (fun p => (Cell.int p.1, p.2)))) with
    | error e => rw [hc] at h; exact absurd h (by simp)
    | ok df =>
      rw [hc] at h
      simp only [Bool.false_eq_true, if_false, Except.ok.injEq] at h
      subst h
      obtain ⟨-, -, hcats⟩ := pdConcat_eq hc
      cases ts with
      | nil => simp [tagTables, pdConcat] at hc
      | cons t0 ts2 =>
        have htag : tagTables vn (((t0 :: ts2).enum).map (fun p => (Cell.int p.1, p.2)))
            = (t0.addCol vn (Cell.int 0))
              :: tagTables vn ((List.enumFrom 1 ts2).map (fun p => (Cell.int p.1, p.2))) := by
          rw [List.enum_cons]
          rfl
        rw [htag] at hcats
        rw [hcats]
        exact concatCats_cons_lookup_none
          (addCol_cats_lookup (Cell.int 0) (hcond t0 (by simp)))

theorem claim_C6_amended_witness :
    (Table.mk ["redchi", "k"]
        [[Cell.int 1, Cell.str "B"], [Cell.int 2, Cell.str "A"]]
        [("k", [Cell.str "A", Cell.str "B"])]).cats.lookup "k"
      = some (sortCells (((Table.mk ["redchi", "k"]
          [[Cell.int 1, Cell.str "B"], [Cell.int 2, Cell.str "A"]]
          [("k", [Cell.str "A", Cell.str "B"])]).col "k").dedup)) :=
  (claim_C6_amended (dispatchLeaf "glance")).1
    [("B", .leaf (regLeaf 1)), ("A", .leaf (regLeaf 2))] "k" [] _ (by rfl)

/-- **C1** (Scenario D): for the dict-of-lists input mapping `A` to
`[r1, r2]` and `B` to `[r3, r4]`, with provenance names
`[function, dataset]`, the summary call returns a table with both the
`function` and `dataset` columns, exactly 4 rows, whose `dataset` column
reads `0,1,0,1` aligned with `function` values `A,A,B,B`. -/
theorem claim_C1 :
    pyCall (dispatchLeaf "glance") scenarioD ["function", "dataset"]
      = .ok ⟨["redchi", "dataset", "function"],
             [[Cell.int 1, Cell.int 0, Cell.str "A"],
              [Cell.int 2, Cell.int 1, Cell.str "A"],
              [Cell.int 3, Cell.int 0, Cell.str "B"],
              [Cell.int 4, Cell.int 1, Cell.str "B"]],
             [("function", [Cell.str "A", Cell.str "B"])]⟩
    ∧ "function" ∈ (Table.mk ["redchi", "dataset", "function"] [] []).cols
    ∧ "dataset" ∈ (Table.mk ["redchi", "dataset", "function"] [] []).cols := by
  refine ⟨by rfl, by decide, by decide⟩

/-- **C4**: the provenance-arity `ValueError` is raised exactly when the
recursion reaches a container level with no remaining provenance names: a
container with an empty name list raises it, a dict-of-lists with a single
name raises it one level down, and a leaf ignores whatever names are left
over (never an error). -/
theorem claim_C4 {α : Type} (ext : α → Except PyErr Table) :
    (∀ xs : List (FitVal α),
        pyCall ext (.lst xs) [] = .error (.valueError varNamesMsg))
    ∧ (∀ ps : List (String × FitVal α),
        pyCall ext (.dct ps) [] = .error (.valueError varNamesMsg))
    ∧ (∀ (k : String) (ys : List (FitVal α)) (ps : List (String × FitVal α))
        (vn : String),
        pyCall ext (.dct ((k, .lst ys) :: ps)) [vn]
          = .error (.valueError varNamesMsg))
    ∧ (∀ (a : α) (vns : List String), pyCall ext (.leaf a) vns = ext a) := by
  refine ⟨fun xs => rfl, fun ps => rfl, fun k ys ps vn => ?_, fun a vns => rfl⟩
  simp [pyCall, goDict]

/-- **C5**: a leaf whose runtime type has no registered extractor raises
the `NotImplementedError` of the generic singledispatch fallback, whose
message names the runtime type; inside a container the same error
propagates to the caller instead of being absorbed. -/
theorem claim_C5 (opName : String) (l : Leaf) (h : l.tbl = none) :
    (∀ vns, pyCall (dispatchLeaf opName) (.leaf l) vns
        = .error (.notImplemented (unsupportedMsg opName l.typeName)))
    ∧ (∀ (more : List (FitVal Leaf)) (vn : String) (rest : List String),
        pyCall (dispatchLeaf opName) (.lst (.leaf l :: more)) (vn :: rest)
          = .error (.notImplemented (unsupportedMsg opName l.typeName))) := by
  constructor
  · intro vns
    simp [pyCall, dispatchLeaf, h]
  · intro more vn rest
    simp [pyCall, goList, dispatchLeaf, h]

theorem claim_C5_witness :
    pyCall (dispatchLeaf "tidy") (.leaf ⟨"RegressionResults", none⟩) ["key"]
      = .error (.notImplemented (unsupportedMsg "tidy" "RegressionResults")) :=
  (claim_C5 "tidy" ⟨"RegressionResults", none⟩ rfl).1 ["key"]

/-- **C7** (code bug): `tidy` on a scipy `OptimizeResult` raises the
missing-`param_names` `ValueError` precisely when `param_names` *is*
supplied (the keyword binds to the named positional parameter, so the
body's `param_names not in kwargs` check always fires), and raises a
`TypeError` instead when it is absent.  It can never return a table. -/
theorem claim_C7 :
    tidy_optimize_call ⟨[Cell.int 1, Cell.int 2], [], []⟩
        [("param_names", KwVal.sl ["a", "b"])]
      = .error (.valueError "The argument `param_names` is required for this input type.")
    ∧ tidy_optimize_call ⟨[Cell.int 1, Cell.int 2], [], []⟩ []
      = .error (.typeError "tidy_optimize() missing 1 required positional argument: param_names") :=
  ⟨by rfl, by rfl⟩

/-- **C10**: the `glance` table of a scipy `OptimizeResult` never has a
column named `nit` or `status`, whatever attributes the result exposes:
the candidate list holds the concatenated literal `'nitstatus'` (missing
comma in the source) in place of the two names. -/
theorem claim_C10 (r : OptimizeResult) :
    "nit" ∉ (glance_optimize r).cols ∧ "status" ∉ (glance_optimize r).cols := by
  constructor <;>
  · intro h
    simp only [glance_optimize, List.mem_append, List.mem_filter] at h
    rcases h with ⟨hmem, _⟩ | hmem
    · revert hmem; decide
    · split at hmem <;> simp_all

/-- **C3, counterexample**: two leaves of uniform schema whose tables have
zero rows (a parameters table of a result with no parameters) satisfy the
claim's hypotheses, but the provenance column of the container table then
has 0 distinct values, not N = 2. -/
theorem claim_C3_counterexample :
    pyCall (dispatchLeaf "tidy")
        (FitVal.lst [.leaf ⟨"MinimizerResult", some ⟨["name", "value"], [], []⟩⟩,
                     .leaf ⟨"MinimizerResult", some ⟨["name", "value"], [], []⟩⟩])
        ["key"]
      = .ok ⟨["name", "value", "key"], [], []⟩
    ∧ ((Table.mk ["name", "value", "key"] [] []).col "key").dedup.length = 0
    ∧ (0 : Nat) ≠ 2 :=
  ⟨by rfl, by rfl, by decide⟩

/-- **C6, counterexample**: for the dict input with key `B` first and key
`A` second, the provenance column's categories come out as `[A, B]` —
pandas sorts the inferred categories — not `[B, A]`, the keys in order of
first appearance. -/
theorem claim_C6_counterexample :
    pyCall (dispatchLeaf "glance")
        (FitVal.dct [("B", .leaf (regLeaf 1)), ("A", .leaf (regLeaf 2))]) ["k"]
      = .ok ⟨["redchi", "k"],
             [[Cell.int 1, Cell.str "B"], [Cell.int 2, Cell.str "A"]],
             [("k", [Cell.str "A", Cell.str "B"])]⟩
    ∧ [Cell.str "A", Cell.str "B"] ≠ [Cell.str "B", Cell.str "A"] :=
  ⟨by rfl, by decide⟩

theorem insertParam_length (p : LmfitParam) :
    ∀ ps : List LmfitParam, (insertParam p ps).length = ps.length + 1
  | [] => rfl
  | q :: qs => by
    unfold insertParam
    by_cases h : strLe p.name q.name
    · simp [h, List.length_cons]
    · simp [h, insertParam_length p qs]

theorem sortParams_length :
    ∀ ps : List LmfitParam, (sortParams ps).length = ps.length
  | [] => rfl
  | p :: ps => by
    unfold sortParams
    rw [insertParam_length, sortParams_length ps]
    rfl

/-- **C8** (P1): for an lmfit result — where `nvarys` counts the varying
subset of `params`, as lmfit guarantees — the `tidy` table has exactly one
row per parameter reported in `result.params`. -/
theorem claim_C8 (r : LmfitResult)
    (h : r.nvarys = (r.params.filter (fun p => p.vary)).length) :
    (tidy_lmfit r).rows.length = r.params.length := by
  unfold tidy_lmfit
  simp only [List.length_map, List.length_range]
  rw [sortParams_length]
  have hle : r.nvarys ≤ r.params.length := by
    rw [h]
    exact List.length_filter_le _ _
  exact Nat.max_eq_right hle

theorem claim_C8_witness :
    (⟨[⟨"a", Cell.int 1, Cell.nan, Cell.nan, true, Cell.nan, Cell.nan⟩,
       ⟨"b", Cell.int 2, Cell.nan, Cell.nan, false, Cell.nan, Cell.nan⟩],
      [], 1⟩ : LmfitResult).nvarys
      = ((⟨[⟨"a", Cell.int 1, Cell.nan, Cell.nan, true, Cell.nan, Cell.nan⟩,
           ⟨"b", Cell.int 2, Cell.nan, Cell.nan, false, Cell.nan, Cell.nan⟩],
          [], 1⟩ : LmfitResult).params.filter (fun p => p.vary)).length
    ∧ (tidy_lmfit ⟨[⟨"a", Cell.int 1, Cell.nan, Cell.nan, true, Cell.nan, Cell.nan⟩,
         ⟨"b", Cell.int 2, Cell.nan, Cell.nan, false, Cell.nan, Cell.nan⟩],
        [], 1⟩).rows.length
      = (⟨[⟨"a", Cell.int 1, Cell.nan, Cell.nan, true, Cell.nan, Cell.nan⟩,
           ⟨"b", Cell.int 2, Cell.nan, Cell.nan, false, Cell.nan, Cell.nan⟩],
          [], 1⟩ : LmfitResult).params.length :=
  ⟨by decide, claim_C8 _ (by decide)⟩

theorem presBelow_trans {α : Type} {n : Nat} {s1 s2 s3 : Store α}
    (h1 : PreservesBelow n s1 s2) (h2 : PreservesBelow n s2 s3) :
    PreservesBelow n s1 s3 :=
  ⟨le_trans h1.1 h2.1, fun i hi => (h2.2 i hi).trans (h1.2 i hi)⟩

theorem presBelow_refl {α : Type} (n : Nat) (s : Store α) : PreservesBelow n s s :=
  ⟨le_refl _, fun _ _ => rfl⟩

theorem presBelow_append {α : Type} {n : Nat} (s l : Store α) (hn : n ≤ s.length) :
    PreservesBelow n s (s ++ l) :=
  ⟨by simp, fun i hi => List.getElem?_append_left (lt_of_lt_of_le hi hn)⟩

theorem presBelow_set {α : Type} {n : Nat} (s : Store α) (j : Nat) (v : PyObj α)
    (hj : n ≤ j) : PreservesBelow n s (s.set j v) :=
  ⟨by simp, fun i hi => List.getElem?_set_ne (by omega)⟩

theorem storeSetEntry_length {α : Type} (s : Store α) (did : Nat) (k : Cell)
    (v : PyVal α) : (storeSetEntry s did k v).length = s.length := by
  unfold storeSetEntry
  cases h0 : s[did]? with
  | none => rfl
  | some o =>
    cases o with
    | namesO ns => rfl
    | contO b es => simp

theorem presBelow_storeSetEntry {α : Type} {n : Nat} (s : Store α) (did : Nat)
    (k : Cell) (v : PyVal α) (hd : n ≤ did) :
    PreservesBelow n s (storeSetEntry s did k v) := by
  unfold storeSetEntry
  cases h0 : s[did]? with
  | none => exact presBelow_refl n s
  | some o =>
    cases o with
    | namesO ns => exact presBelow_refl n s
    | contO b es => exact presBelow_set s did _ hd

theorem mdFinish_store {α : Type} (did : Nat) (isD : Bool) (vn : String) :
    ∀ (s4 : Store α) (r : Except PyErr Unit), (mdFinish did isD vn s4 r).1 = s4
  | s4, .error e => rfl
  | s4, .ok () => by
    unfold mdFinish
    cases h0 : s4[did]? with
    | none => rfl
    | some o =>
      cases o with
      | namesO ns => rfl
      | contO b es =>
        show (match collectTables es with
          | none => (s4, Except.error (PyErr.typeError "expected a DataFrame"))
          | some ts =>
            match pdConcat ts with
            | .error e => (s4, .error e)
            | .ok df =>
              (s4, .ok (if isD then df.makeCategorical vn else df))).1 = s4
        cases collectTables es with
        | none => rfl
        | some ts =>
          show (match pdConcat ts with
            | Except.error e => (s4, Except.error e)
            | Except.ok df =>
              (s4, Except.ok (if isD then df.makeCategorical vn else df))).1 = s4
          cases pdConcat ts with
          | error e => rfl
          | ok df => rfl

theorem mdLoop_preserves {α : Type} (ext : α → Except PyErr Table) (fuel : Nat)
    (IH : ∀ (s : Store α) (rid vid : Nat),
      PreservesBelow s.length s (multiDataframeSt ext fuel s rid vid).1) :
    ∀ (es : List (Cell × PyVal α)) (n : Nat) (s : Store α) (did vcid : Nat)
      (vn : String), n ≤ did → n ≤ s.length →
      PreservesBelow n s (mdLoop ext fuel s did vcid vn es).1
  | [], n, s, did, vcid, vn, hd, hn => by
    rw [mdLoop]
    exact presBelow_refl n s
  | (k, v) :: es, n, s, did, vcid, vn, hd, hn => by
    cases v with
    | leafV a =>
      show PreservesBelow n s (mdLoop ext fuel s did vcid vn ((k, .leafV a) :: es)).1
      rw [mdLoop]
      cases he : ext a with
      | error e => exact presBelow_refl n s
      | ok t =>
        have h2 := presBelow_storeSetEntry s did k (.tblV t) hd
        have h3 := presBelow_storeSetEntry (storeSetEntry s did k (.tblV t)) did k
          (.tblV (t.addCol vn k)) hd
        have hlen : n ≤ (storeSetEntry (storeSetEntry s did k (.tblV t)) did k
            (.tblV (t.addCol vn k))).length := by
          rw [storeSetEntry_length, storeSetEntry_length]
          exact hn
        exact presBelow_trans (presBelow_trans h2 h3)
          (mdLoop_preserves ext fuel IH es n _ did vcid vn hd hlen)
    | refV cid =>
      show PreservesBelow n s (mdLoop ext fuel s did vcid vn ((k, .refV cid) :: es)).1
      rw [mdLoop]
      cases hr : multiDataframeSt ext fuel s cid vcid with
      | mk s1 res =>
        have hpre : PreservesBelow n s s1 := by
          have := IH s cid vcid
          rw [hr] at this
          exact ⟨this.1, fun i hi => this.2 i (lt_of_lt_of_le hi hn)⟩
        cases res with
        | error e => exact hpre
        | ok t =>
          have h2 := presBelow_storeSetEntry s1 did k (.tblV t) hd
          have h3 := presBelow_storeSetEntry (storeSetEntry s1 did k (.tblV t)) did k
            (.tblV (t.addCol vn k)) hd
          have hlen : n ≤ (storeSetEntry (storeSetEntry s1 did k (.tblV t)) did k
              (.tblV (t.addCol vn k))).length := by
            rw [storeSetEntry_length, storeSetEntry_length]
            exact le_trans hn hpre.1
          exact presBelow_trans hpre (presBelow_trans (presBelow_trans h2 h3)
            (mdLoop_preserves ext fuel IH es n _ did vcid vn hd hlen))
    | tblV tb =>
      show PreservesBelow n s (mdLoop ext fuel s did vcid vn ((k, .tblV tb) :: es)).1
      rw [mdLoop]
      exact presBelow_refl n s

/-- **C9**: a call of the dispatcher never touches the caller's objects:
every store index that existed before the call (the input collection, the
`var_names` list, and all nested containers) holds the same object
afterwards, whether the call returns a table or an error (any `ext`, so
this covers `tidy`, `glance` and `augment`).  The code only allocates
fresh copies (`_as_odict_copy`, `_as_list_of_strings_copy`) and mutates
those: `var_names.pop(0)` hits the fresh list, `d[key] = ...` the fresh
`OrderedDict`. -/
theorem claim_C9 {α : Type} (ext : α → Except PyErr Table) :
    ∀ (fuel : Nat) (s : Store α) (rid vid : Nat),
      s.length ≤ (multiDataframeSt ext fuel s rid vid).1.length ∧
      ∀ i, i < s.length → (multiDataframeSt ext fuel s rid vid).1[i]? = s[i]?
  | 0, s, rid, vid => by
    show PreservesBelow s.length s (multiDataframeSt ext 0 s rid vid).1
    rw [multiDataframeSt]
    exact presBelow_refl s.length s
  | fuel + 1, s, rid, vid => by
    show PreservesBelow s.length s (multiDataframeSt ext (fuel + 1) s rid vid).1
    rw [multiDataframeSt]
    cases hv : s[vid]? with
    | none => exact presBelow_refl s.length s
    | some o =>
      cases o with
      | contO b es => exact presBelow_refl s.length s
      | namesO ns =>
        cases ns with
        | nil => exact presBelow_refl s.length s
        | cons vn nrest =>
          cases hr : s[rid]? with
          | none => exact presBelow_refl s.length s
          | some o2 =>
            cases o2 with
            | namesO ns2 => exact presBelow_refl s.length s
            | contO isD entries =>
              have h1 : PreservesBelow s.length s
                  (((s ++ [PyObj.contO isD entries]) ++ [PyObj.namesO (vn :: nrest)]).set
                    (s ++ [PyObj.contO isD entries]).length (.namesO nrest)) := by
                refine presBelow_trans (presBelow_trans
                  (presBelow_append s [PyObj.contO isD entries] (le_refl _))
                  (presBelow_append _ [PyObj.namesO (vn :: nrest)] (by simp)))
                  (presBelow_set _ _ _ (by simp))
              have h2 := mdLoop_preserves ext fuel (claim_C9 ext fuel) entries s.length
                (((s ++ [PyObj.contO isD entries]) ++ [PyObj.namesO (vn :: nrest)]).set
                  (s ++ [PyObj.contO isD entries]).length (.namesO nrest))
                s.length ((s ++ [PyObj.contO isD entries]).length) vn
                (le_refl _) (by simp)
              rw [mdFinish_store]
              exact presBelow_trans h1 h2

theorem claim_C9_witness :
    (Pybroom.multiDataframeSt (fun n : Nat => Except.ok (sumTable n)) 4
        [PyObj.contO false [(Cell.int 0, PyVal.leafV 1), (Cell.int 1, PyVal.leafV 2)],
         PyObj.namesO ["key"]] 0 1).1[0]?
      = (([PyObj.contO false [(Cell.int 0, PyVal.leafV 1), (Cell.int 1, PyVal.leafV 2)],
          PyObj.namesO ["key"]] : Store Nat))[0]? :=
  (claim_C9 (fun n : Nat => Except.ok (sumTable n)) 4
    [PyObj.contO false [(Cell.int 0, PyVal.leafV 1), (Cell.int 1, PyVal.leafV 2)],
     PyObj.namesO ["key"]] 0 1).2 0 (by decide)

end Pybroom
